import Mathlib

/-!
Verification of the interaction-and-physics engine of the Vue wheel-picker
component (`src/components/WheelPicker.vue`).  The definitions below are a
shallow embedding of the script section of that component: scroll positions and
the physics run over `ℚ` (JavaScript numbers are exact on every value these
claims touch), while the 3D geometry and animation durations, which involve
`tan` and square roots, live over `ℝ`.
-/

namespace VueWheelPicker

/-- Truncation toward zero: the integer conversion underlying the JavaScript
`%` remainder operator and `x | 0`. -/
def qtrunc (q : ℚ) : ℤ := if 0 ≤ q then ⌊q⌋ else ⌈q⌉

/-- JavaScript remainder `a % b` (the sign follows the dividend):
`a - b * trunc (a / b)`. -/
def jsMod (a b : ℚ) : ℚ := a - b * qtrunc (a / b)

/-- JavaScript `x | 0`: conversion to a signed 32-bit integer (truncate toward
zero, then wrap modulo `2 ^ 32` into `[-2 ^ 31, 2 ^ 31)`). -/
def toInt32 (q : ℚ) : ℤ := (qtrunc q + 2 ^ 31) % 2 ^ 32 - 2 ^ 31

/-- JavaScript `Math.round`: round half toward positive infinity. -/
def jsRound (q : ℚ) : ℤ := ⌊q + 1 / 2⌋

/-- Source `clamp` (WheelPicker.vue line 148): `Math.max(min, Math.min(v, max))`. -/
def clamp (v lo hi : ℚ) : ℚ := max lo (min v hi)

/-- Source `easeOutCubic` (line 147): `Math.pow(p - 1, 3) + 1`. -/
def easeOutCubic (p : ℚ) : ℚ := (p - 1) ^ 3 + 1

/-- An option of the wheel picker: `{ value, label }` (lines 5-8). -/
structure WPOption (α : Type) where
  value : α
  label : String
  deriving DecidableEq

/-- The mutable component state read and written by `selectByScroll`:
`scrollRef` (line 131, the authoritative scroll position) and `localValue`
(line 129, the tracked current value; `none` models JavaScript `undefined`). -/
structure PickerState (α : Type) where
  scrollRef : ℚ
  localValue : Option α
  deriving DecidableEq

/-- JavaScript array indexing `l[q]` with a numeric index: an element comes back
exactly when `q` is a nonnegative integer below the length, otherwise the read
yields `undefined` (`none`). -/
def listIndexQ {β : Type} (l : List β) (q : ℚ) : Option β :=
  if 0 ≤ q.num ∧ q.den = 1 then l.get? q.num.toNat else none

/-- Source `normalizeScroll` (lines 150-154), with the working-list length
passed explicitly: `((scroll % len) + len) % len`, and `0` for an empty list. -/
def normalizeScroll (len : ℕ) (scroll : ℚ) : ℚ :=
  if len = 0 then 0 else jsMod (jsMod scroll len + len) len

/-- The clamped integer index of source line 210 (non-infinite branch of
`selectByScroll`): `Math.min(Math.max(normalizeScroll(scroll) | 0, 0), opts.length - 1)`. -/
def boundedIndex {α : Type} (opts : List (WPOption α)) (scroll : ℚ) : ℤ :=
  min (max (toInt32 (normalizeScroll opts.length scroll)) 0) ((opts.length : ℤ) - 1)

/-- The integer index `bounded` of source lines 209-210: the normalized scroll
truncated by `| 0`, clamped into range when not infinite. -/
def resolvedIndex {α : Type} (opts : List (WPOption α)) (inf : Bool) (scroll : ℚ) : ℤ :=
  if inf then toInt32 (normalizeScroll opts.length scroll) else boundedIndex opts scroll

/-- The value `scrollTo(bounded)` assigned to `scrollRef` on source line 214:
`scrollTo` re-normalizes in infinite mode and is the identity otherwise
(line 158). -/
def resolvedScroll {α : Type} (opts : List (WPOption α)) (inf : Bool) (scroll : ℚ) : ℚ :=
  if inf then normalizeScroll opts.length ((resolvedIndex opts inf scroll : ℤ) : ℚ)
  else ((resolvedIndex opts inf scroll : ℤ) : ℚ)

/-- Source `selectByScroll` (lines 206-220).  Takes the working list, the
`infinite` flag, the raw scroll and the current state; returns the new state
together with the emitted `update:modelValue` payload (`none` when the function
returns without emitting). -/
def selectByScroll {α : Type} [DecidableEq α] (opts : List (WPOption α)) (inf : Bool)
    (scroll : ℚ) (st : PickerState α) : PickerState α × Option α :=
  if opts.length = 0 then (st, none) else
  if inf = false ∧ ((resolvedIndex opts inf scroll : ℤ) : ℚ) ≠ scroll then (st, none) else
  match listIndexQ opts (resolvedScroll opts inf scroll) with
  | some sel =>
    if some sel.value ≠ st.localValue then
      (⟨resolvedScroll opts inf scroll, some sel.value⟩, some sel.value)
    else
      (⟨resolvedScroll opts inf scroll, st.localValue⟩, none)
  | none => (⟨resolvedScroll opts inf scroll, st.localValue⟩, none)

/-- The per-frame `tick` loop of source `animateScroll` (lines 192-203): given
the remaining `requestAnimationFrame` timestamps, return the sequence of scroll
values projected through `scrollTo` and the number of `onComplete` invocations. -/
def animTick (start endVal duration startTime : ℚ) : List ℚ → List ℚ × ℕ
  | [] => ([], 0)
  | now :: rest =>
    let elapsed := (now - startTime) / 1000
    if elapsed < duration then
      let r := animTick start endVal duration startTime rest
      ((start + easeOutCubic (elapsed / duration) * (endVal - start)) :: r.1, r.2)
    else ([endVal], 1)

/-- Source `animateScroll` (lines 184-204): `frames` is the list of timestamps
at which the scheduled `tick` callback runs. -/
def animateScroll (start endVal duration startTime : ℚ) (frames : List ℚ) : List ℚ × ℕ :=
  if start = endVal ∨ duration = 0 then ([start], 0)
  else animTick start endVal duration startTime frames

/-- Source `scrollByStep` (lines 231-243): `none` models returning without
starting an animation (hence no completion callback and no emission); otherwise
`some (start, end, duration)` is the request handed to `animateScroll`. -/
noncomputable def scrollByStep (len : ℕ) (scrollSensitivity : ℚ) (inf : Bool)
    (scrollRef step : ℚ) : Option (ℚ × ℚ × ℝ) :=
  let start := scrollRef
  let endV : ℚ :=
    if inf then (jsRound (start + step) : ℤ)
    else clamp ((jsRound (start + step) : ℤ) : ℚ) 0 ((len : ℚ) - 1)
  let dist := |endV - start|
  if dist = 0 then none
  else some (start, endV, Real.sqrt ((dist / scrollSensitivity : ℚ) : ℝ))

/-- The click-to-step mapping inside source `handleWheelItemClick` (line 329):
`(quarterCount - idx - 1) * -1` for the hit segment index `idx`. -/
def clickSteps (quarterCount idx : ℕ) : ℤ := ((quarterCount : ℤ) - idx - 1) * (-1)

/-- Source `decelerateAndAnimateScroll` (lines 334-360): returns the animation
target `end` together with its duration in seconds. -/
noncomputable def decelerateAndAnimateScroll (len : ℕ) (dragSensitivity : ℚ)
    (inf : Bool) (start velocity : ℚ) : ℚ × ℝ :=
  let decel := dragSensitivity * 10
  if inf then
    let duration := |velocity / decel|
    let dist := velocity * duration + 1 / 2 * (if 0 < velocity then -decel else decel) * duration ^ 2
    (((jsRound (start + dist) : ℤ) : ℚ), (duration : ℝ))
  else if start < 0 ∨ (len : ℚ) - 1 < start then
    let endV := clamp start 0 ((len : ℚ) - 1)
    (endV, Real.sqrt ((|start - endV| / 10 : ℚ) : ℝ))
  else
    let duration := |velocity / decel|
    let dist := velocity * duration + 1 / 2 * (if 0 < velocity then -decel else decel) * duration ^ 2
    let endV := clamp ((jsRound (start + dist) : ℤ) : ℚ) 0 ((len : ℚ) - 1)
    (endV, Real.sqrt ((|endV - start| / decel : ℚ) : ℝ))

/-- The list `l` repeated end-to-end `n` times. -/
def repList {β : Type} (l : List β) : ℕ → List β
  | 0 => []
  | n + 1 => l ++ repList l n

/-- The `while (result.length < halfCount) result.push(...optionsProp.value)`
loop of source lines 51-53, started from the accumulator `acc`.  The loop only
runs on a nonempty source list, which is what makes it terminate. -/
def fillLoop {β : Type} (src : List β) (hs : src ≠ []) (halfCount : ℕ) (acc : List β) :
    List β :=
  if h : acc.length < halfCount then fillLoop src hs halfCount (acc ++ src) else acc
termination_by halfCount - acc.length
decreasing_by
  have hpos : 0 < src.length := List.length_pos.mpr hs
  simp only [List.length_append]
  omega

/-- The source working-list builder, the computed `options` (lines 42-55): the
caller's list unchanged when not infinite, `[]` when the caller's list is
empty, and otherwise the caller's list cloned end-to-end until its length
reaches `Math.ceil(visibleCount / 2)`. -/
def optionsList {β : Type} (optionsProp : List β) (inf : Bool) (visibleCount : ℕ) :
    List β :=
  if inf = false then optionsProp
  else if h : optionsProp.length = 0 then []
  else fillLoop optionsProp (fun he => h (by simp [he])) ((visibleCount + 1) / 2) []

/-- The geometry record computed by source `measurements` (lines 58-67). -/
structure Measurements where
  height : ℝ
  halfItemHeight : ℝ
  itemAngle : ℝ
  radius : ℝ
  containerHeight : ℤ
  quarterCount : ℕ

/-- Source `measurements` (lines 58-67), a pure function of the configuration. -/
noncomputable def measurements (count : ℕ) (height : ℝ) : Measurements :=
  let itemAngle : ℝ := 360 / (count : ℝ)
  let radius : ℝ := height / Real.tan ((itemAngle * Real.pi) / 180)
  let containerHeight : ℤ := round (radius * 2 + height * 0.25)
  let quarterCount : ℕ := count >>> 2
  ⟨height, height * 0.5, itemAngle, radius, containerHeight, quarterCount⟩

/-- A rendered ring item of source `displayItems` (lines 70-100).  `ringIndex`
is the source field `_index`; `value?` and `label?` are `none` exactly when the
JavaScript object spread copied from an undefined array slot. -/
structure DisplayItem (α : Type) where
  value? : Option α
  label? : Option String
  ringIndex : ℤ
  angle : ℝ

/-- The JavaScript object spread `{...src[j], _index: idx, angle: ang}` where
`src[j]` may be undefined. -/
def spreadItem {α : Type} (o : Option (WPOption α)) (idx : ℤ) (ang : ℝ) : DisplayItem α :=
  ⟨o.map WPOption.value, o.map WPOption.label, idx, ang⟩

/-- The ghost-adding `for` loop of source lines 82-97: iteration `i` unshifts
`mkPre i` at the front and pushes `mkApp i` at the back. -/
def ghostIter {γ : Type} (mkPre mkApp : ℕ → γ) (q i : ℕ) (items : List γ) : List γ :=
  if h : i < q then ghostIter mkPre mkApp q (i + 1) (mkPre i :: (items ++ [mkApp i])) else items
termination_by q - i
decreasing_by omega

/-- Source `displayItems` (lines 70-100): the base working-list items, plus the
`quarterCount` wrap-around ghosts prepended and appended in infinite mode. -/
noncomputable def displayItems {α : Type} (m : Measurements) (src : List (WPOption α))
    (inf : Bool) : List (DisplayItem α) :=
  let items := src.enum.map fun p => spreadItem (some p.2) (p.1 : ℤ) (-m.itemAngle * (p.1 : ℝ))
  if inf = true ∧ 0 < src.length then
    ghostIter
      (fun i => spreadItem (src.get? (src.length - i - 1)) (-(i : ℤ) - 1)
        (m.itemAngle * ((i : ℝ) + 1)))
      (fun i => spreadItem (src.get? i) ((i : ℤ) + src.length)
        (-m.itemAngle * ((i : ℝ) + src.length)))
      m.quarterCount 0 items
  else items

/-- The rendered item list of the full component pipeline in infinite mode: the
working list built from the caller's options, laid out with the computed
geometry. -/
noncomputable def renderedItems {α : Type} (opts : List (WPOption α)) (visibleCount : ℕ)
    (itemHeight : ℝ) : List (DisplayItem α) :=
  displayItems (measurements visibleCount itemHeight) (optionsList opts true visibleCount) true

/-! ## Arithmetic facts about the JavaScript remainder and `normalizeScroll` -/

lemma qtrunc_of_nonneg {q : ℚ} (h : 0 ≤ q) : qtrunc q = ⌊q⌋ := if_pos h

lemma jsMod_div_fract (a b : ℚ) (hb : b ≠ 0) :
    Int.fract (jsMod a b / b) = Int.fract (a / b) := by
  have h1 : jsMod a b / b = a / b - (qtrunc (a / b) : ℚ) := by
    unfold jsMod
    field_simp
  rw [h1, Int.fract_sub_int]

lemma jsMod_of_nonneg (a b : ℚ) (hb : 0 < b) (h : 0 ≤ a / b) :
    jsMod a b = b * Int.fract (a / b) := by
  have hb0 : b ≠ 0 := ne_of_gt hb
  unfold jsMod
  rw [qtrunc_of_nonneg h, Int.fract]
  field_simp

lemma jsMod_lower (a b : ℚ) (hb : 0 < b) : -b < jsMod a b := by
  have hb0 : b ≠ 0 := ne_of_gt hb
  rcases le_or_lt 0 (a / b) with h | h
  · rw [jsMod_of_nonneg a b hb h]
    have hf := Int.fract_nonneg (a / b)
    nlinarith
  · unfold jsMod
    rw [qtrunc, if_neg (not_le.mpr h)]
    have h1 : (⌈a / b⌉ : ℚ) < a / b + 1 := Int.ceil_lt_add_one _
    have h3 : a - b * ((⌈a / b⌉ : ℤ) : ℚ) = b * (a / b - ((⌈a / b⌉ : ℤ) : ℚ)) := by
      field_simp
    rw [h3]
    nlinarith

lemma normalizeScroll_eq_fract (N : ℕ) (hN : 0 < N) (s : ℚ) :
    normalizeScroll N s = (N : ℚ) * Int.fract (s / N) := by
  have hN0 : N ≠ 0 := Nat.pos_iff_ne_zero.mp hN
  have hNQ : (0 : ℚ) < N := by exact_mod_cast hN
  have hNQ0 : (N : ℚ) ≠ 0 := ne_of_gt hNQ
  unfold normalizeScroll
  rw [if_neg hN0]
  have hrl : -(N : ℚ) < jsMod s N := jsMod_lower s N hNQ
  have h1 : 0 ≤ (jsMod s N + N) / N := div_nonneg (by linarith) hNQ.le
  rw [jsMod_of_nonneg (jsMod s N + N) N hNQ h1]
  have h2 : (jsMod s N + (N : ℚ)) / N = jsMod s N / N + 1 := by field_simp
  have h3 : Int.fract (jsMod s N / (N : ℚ) + 1) = Int.fract (jsMod s N / N) := by
    simpa using Int.fract_add_int (jsMod s N / (N : ℚ)) 1
  rw [h2, h3, jsMod_div_fract s N hNQ0]

/-- C2: for every working-list length `N ≥ 1`, `normalizeScroll` lands in
`[0, N)`, is periodic with period `N` (so `normalize (s + k * N) = normalize s`
for every integer `k`), and `normalizeScroll (-1) = N - 1`: scrolling one step
negative from index 0 wraps to the last option. -/
theorem normalizeScroll_range_periodic (N : ℕ) (hN : 0 < N) (s : ℚ) (k : ℤ) :
    0 ≤ normalizeScroll N s ∧ normalizeScroll N s < N ∧
      normalizeScroll N (s + (k : ℚ) * (N : ℚ)) = normalizeScroll N s ∧
      normalizeScroll N (-1) = (N : ℚ) - 1 := by
  have hNQ : (0 : ℚ) < N := by exact_mod_cast hN
  have hNQ0 : (N : ℚ) ≠ 0 := ne_of_gt hNQ
  refine ⟨?_, ?_, ?_, ?_⟩
  · rw [normalizeScroll_eq_fract N hN]
    exact mul_nonneg hNQ.le (Int.fract_nonneg _)
  · rw [normalizeScroll_eq_fract N hN]
    have hf := Int.fract_lt_one (s / (N : ℚ))
    nlinarith
  · rw [normalizeScroll_eq_fract N hN, normalizeScroll_eq_fract N hN]
    have h1 : (s + (k : ℚ) * (N : ℚ)) / N = s / N + (k : ℚ) := by field_simp
    rw [h1, Int.fract_add_int]
  · rw [normalizeScroll_eq_fract N hN]
    have hone : (1 : ℚ) ≤ N := by exact_mod_cast hN
    have hfl : ⌊(-1 : ℚ) / N⌋ = -1 := by
      rw [Int.floor_eq_iff]
      constructor
      · push_cast
        rw [le_div_iff hNQ]
        linarith
      · push_cast
        have : (-1 : ℚ) / N < 0 := div_neg_of_neg_of_pos (by norm_num) hNQ
        linarith
    rw [Int.fract, hfl]
    push_cast
    field_simp
    ring

/-- Witness for C2 at `N = 2`, `s = 3/2`, `k = -5`. -/
theorem normalizeScroll_range_periodic_witness :
    0 ≤ normalizeScroll 2 (3 / 2) ∧ normalizeScroll 2 (3 / 2) < ((2 : ℕ) : ℚ) ∧
      normalizeScroll 2 (3 / 2 + ((-5 : ℤ) : ℚ) * ((2 : ℕ) : ℚ)) = normalizeScroll 2 (3 / 2) ∧
      normalizeScroll 2 (-1) = ((2 : ℕ) : ℚ) - 1 :=
  normalizeScroll_range_periodic 2 (by decide) (3 / 2) (-5)

/-! ## The Selection Resolver: bounded-mode guard and deduplication -/

lemma boundedIndex_mem {α : Type} (opts : List (WPOption α)) (s : ℚ)
    (hlen : 1 ≤ opts.length) :
    0 ≤ boundedIndex opts s ∧ boundedIndex opts s ≤ (opts.length : ℤ) - 1 := by
  unfold boundedIndex
  have h1 : (0 : ℤ) ≤ (opts.length : ℤ) - 1 := by
    have h2 : (1 : ℤ) ≤ (opts.length : ℤ) := by exact_mod_cast hlen
    omega
  exact ⟨le_min (le_max_right _ _) h1, min_le_right _ _⟩

/-- C1: in non-infinite (bounded) mode with a working list of length `N ≥ 1`,
`selectByScroll` emits a change notification only when the raw scroll is an
integer lying in `[0, N - 1]`, and whenever the resolved bounded index differs
from the raw scroll it returns without emitting and without changing any
tracked state. -/
theorem selectByScroll_bounded_guard {α : Type} [DecidableEq α]
    (opts : List (WPOption α)) (s : ℚ) (st : PickerState α) (hlen : 1 ≤ opts.length) :
    ((selectByScroll opts false s st).2.isSome →
        ∃ n : ℕ, s = (n : ℚ) ∧ (n : ℤ) ≤ (opts.length : ℤ) - 1) ∧
      (((boundedIndex opts s : ℤ) : ℚ) ≠ s → selectByScroll opts false s st = (st, none)) := by
  have hne : opts.length ≠ 0 := by omega
  constructor
  · intro hem
    by_cases hg : ((boundedIndex opts s : ℤ) : ℚ) = s
    · obtain ⟨h0, h1⟩ := boundedIndex_mem opts s hlen
      refine ⟨(boundedIndex opts s).toNat, ?_, ?_⟩
      · have hQ : (((boundedIndex opts s).toNat : ℕ) : ℚ) = ((boundedIndex opts s : ℤ) : ℚ) := by
          exact_mod_cast Int.toNat_of_nonneg h0
        rw [hQ]
        exact hg.symm
      · rw [Int.toNat_of_nonneg h0]
        exact h1
    · exfalso
      simp [selectByScroll, resolvedIndex, hne, hg] at hem
  · intro hg
    simp [selectByScroll, resolvedIndex, hne, hg]

/-- Witness for C1: a half-step scroll in a one-item bounded list is rejected
without a state change. -/
theorem selectByScroll_bounded_guard_witness :
    selectByScroll [⟨(0 : ℤ), "a"⟩] false (1 / 2) ⟨0, none⟩ = (⟨0, none⟩, none) :=
  (selectByScroll_bounded_guard [⟨(0 : ℤ), "a"⟩] (1 / 2) ⟨0, none⟩ (by norm_num)).2
    (by norm_num [boundedIndex, toInt32, normalizeScroll, jsMod, qtrunc])

/-- C8: `selectByScroll` emits only when the resolved option's value differs
from the tracked current value (and then updates the tracked value to it), and
resolving the same scroll twice in a row never emits a second change
notification. -/
theorem selectByScroll_dedup {α : Type} [DecidableEq α] (opts : List (WPOption α))
    (inf : Bool) (s : ℚ) (st : PickerState α) :
    (∀ v, (selectByScroll opts inf s st).2 = some v →
        st.localValue ≠ some v ∧ (selectByScroll opts inf s st).1.localValue = some v) ∧
      (selectByScroll opts inf s (selectByScroll opts inf s st).1).2 = none := by
  by_cases h0 : opts.length = 0
  · simp [selectByScroll, h0]
  · by_cases hinf : inf = false
    · subst hinf
      by_cases hg : ((resolvedIndex opts false s : ℤ) : ℚ) = s
      · rcases hsel : listIndexQ opts (resolvedScroll opts false s) with _ | sel
        · simp [selectByScroll, h0, hg, hsel]
        · by_cases hv : some sel.value = st.localValue
          · simp [selectByScroll, h0, hg, hsel, hv]
          · simp [selectByScroll, h0, hg, hsel, hv]
            exact fun h => hv h.symm
      · simp [selectByScroll, h0, hg]
    · have hinf2 : inf = true := by
        revert hinf
        cases inf <;> simp
      subst hinf2
      rcases hsel : listIndexQ opts (resolvedScroll opts true s) with _ | sel
      · simp [selectByScroll, h0, hsel]
      · by_cases hv : some sel.value = st.localValue
        · simp [selectByScroll, h0, hsel, hv]
        · simp [selectByScroll, h0, hsel, hv]
          exact fun h => hv h.symm

/-- Witness for C8: with tracked value `0`, resolving scroll `1` over
`[(0, a), (1, b)]` emits `1` and updates the tracked value; resolving the same
scroll again emits nothing. -/
theorem selectByScroll_dedup_witness :
    (some (0 : ℤ) ≠ some 1 ∧
        (selectByScroll [⟨(0 : ℤ), "a"⟩, ⟨1, "b"⟩] false 1 ⟨0, some 0⟩).1.localValue = some 1) ∧
      (selectByScroll [⟨(0 : ℤ), "a"⟩, ⟨1, "b"⟩] false 1
          (selectByScroll [⟨(0 : ℤ), "a"⟩, ⟨1, "b"⟩] false 1 ⟨0, some 0⟩).1).2 = none :=
  ⟨(selectByScroll_dedup [⟨(0 : ℤ), "a"⟩, ⟨1, "b"⟩] false 1 ⟨0, some 0⟩).1 1
      (by norm_num [selectByScroll, resolvedIndex, resolvedScroll, boundedIndex, toInt32,
        normalizeScroll, jsMod, qtrunc, listIndexQ]),
    (selectByScroll_dedup [⟨(0 : ℤ), "a"⟩, ⟨1, "b"⟩] false 1 ⟨0, some 0⟩).2⟩

/-! ## The Geometry Calculator -/

/-- C4: the geometry is a pure function of the configuration computing
`itemAngle = 360 / visibleCount`, `radius = itemHeight / tan(itemAngle
converted to radians)`, `containerHeight = round (2 * radius + itemHeight *
0.25)` and `quarterCount = visibleCount >>> 2`. -/
theorem measurements_formulas (count : ℕ) (height : ℝ) :
    (measurements count height).itemAngle = 360 / (count : ℝ) ∧
      (measurements count height).radius =
        height / Real.tan (360 / (count : ℝ) * Real.pi / 180) ∧
      (measurements count height).containerHeight =
        round (2 * (measurements count height).radius + height * 0.25) ∧
      (measurements count height).quarterCount = count >>> 2 := by
  refine ⟨rfl, rfl, ?_, rfl⟩
  have h : (measurements count height).containerHeight =
      round ((measurements count height).radius * 2 + height * 0.25) := rfl
  rw [h]
  congr 1
  ring

/-- Counterexample for C5: the claimed value `radius == 30 / tan(9°)` is wrong
for the code, which computes `30 / tan(18°)` (`tan` of the full per-item angle,
not of its half). -/
theorem measurements_radius_ne_tan9 :
    (measurements 20 30).radius ≠ 30 / Real.tan (9 * Real.pi / 180) := by
  have hpi := Real.pi_pos
  have hang : (measurements 20 30).radius = 30 / Real.tan (18 * Real.pi / 180) := by
    have h : (measurements 20 30).radius =
        (30 : ℝ) / Real.tan (360 / ((20 : ℕ) : ℝ) * Real.pi / 180) := rfl
    rw [h]
    norm_num
  rw [hang]
  intro h
  have h9pos : (0 : ℝ) < 9 * Real.pi / 180 := by positivity
  have h9lt : (9 : ℝ) * Real.pi / 180 < Real.pi / 2 := by linarith
  have h18lt : (18 : ℝ) * Real.pi / 180 < Real.pi / 2 := by linarith
  have hlt : (9 : ℝ) * Real.pi / 180 < 18 * Real.pi / 180 := by linarith
  have htan : Real.tan (9 * Real.pi / 180) < Real.tan (18 * Real.pi / 180) :=
    Real.tan_lt_tan_of_nonneg_of_lt_pi_div_two h9pos.le h18lt hlt
  have h9tanpos : (0 : ℝ) < Real.tan (9 * Real.pi / 180) :=
    Real.tan_pos_of_pos_of_lt_pi_div_two h9pos h9lt
  have h18tanpos : (0 : ℝ) < Real.tan (18 * Real.pi / 180) := lt_trans h9tanpos htan
  rw [div_eq_div_iff (ne_of_gt h18tanpos) (ne_of_gt h9tanpos)] at h
  nlinarith

/-- C5 (amended): for `visibleCount = 20`, `itemHeight = 30` the geometry gives
`itemAngle = 18` degrees, `radius = 30 / tan(18°)` (≈ 92.3, the tangent of the
full item angle), and `containerHeight = round (2 * radius + 7.5)`. -/
theorem measurements_at_20_30 :
    (measurements 20 30).itemAngle = 18 ∧
      (measurements 20 30).radius = 30 / Real.tan (18 * Real.pi / 180) ∧
      (measurements 20 30).containerHeight =
        round (2 * (measurements 20 30).radius + 7.5) := by
  refine ⟨?_, ?_, ?_⟩
  · have h : (measurements 20 30).itemAngle = 360 / ((20 : ℕ) : ℝ) := rfl
    rw [h]
    norm_num
  · have h : (measurements 20 30).radius =
        (30 : ℝ) / Real.tan (360 / ((20 : ℕ) : ℝ) * Real.pi / 180) := rfl
    rw [h]
    norm_num
  · have h : (measurements 20 30).containerHeight =
        round ((measurements 20 30).radius * 2 + (30 : ℝ) * 0.25) := rfl
    rw [h]
    congr 1
    norm_num
    ring

/-! ## The Animation Driver -/

lemma animTick_complete (start endVal duration startTime : ℚ)
    (pre : List ℚ) (now : ℚ) (post : List ℚ)
    (hpre : ∀ x ∈ pre, (x - startTime) / 1000 < duration)
    (hnow : ¬((now - startTime) / 1000 < duration)) :
    animTick start endVal duration startTime (pre ++ now :: post) =
      (pre.map (fun x =>
          start + easeOutCubic ((x - startTime) / 1000 / duration) * (endVal - start)) ++
        [endVal], 1) := by
  induction pre with
  | nil => simp [animTick, hnow]
  | cons a as ih =>
    have ha := hpre a (by simp)
    have hrest : ∀ x ∈ as, (x - startTime) / 1000 < duration := fun x hx =>
      hpre x (by simp [hx])
    simp [animTick, ha, ih hrest]

/-- C7: `animateScroll` applied with `start = end` or `duration = 0` performs a
single synchronous projection of `start` and never invokes `onComplete`;
otherwise, on the first frame whose elapsed time reaches the duration it
projects exactly `end` (not an eased approximation) and invokes `onComplete`
exactly once. -/
theorem animateScroll_endpoints :
    (∀ (start endVal duration startTime : ℚ) (frames : List ℚ),
        start = endVal ∨ duration = 0 →
          animateScroll start endVal duration startTime frames = ([start], 0)) ∧
      (∀ (start endVal duration startTime : ℚ) (pre post : List ℚ) (now : ℚ),
        start ≠ endVal → duration ≠ 0 →
        (∀ x ∈ pre, (x - startTime) / 1000 < duration) →
        ¬((now - startTime) / 1000 < duration) →
          animateScroll start endVal duration startTime (pre ++ now :: post) =
            (pre.map (fun x =>
                start + easeOutCubic ((x - startTime) / 1000 / duration) * (endVal - start)) ++
              [endVal], 1)) := by
  constructor
  · intro s e d t frames h
    simp [animateScroll, h]
  · intro s e d t pre post now h1 h2 hpre hnow
    rw [animateScroll, if_neg (by tauto)]
    exact animTick_complete s e d t pre now post hpre hnow

/-- Witness for C7: a two-frame run of `animateScroll 0 1 1` projects the eased
value `7/8` at 500 ms, then exactly `1` at 1200 ms with one `onComplete` call;
a degenerate run projects `start` once and completes nothing. -/
theorem animateScroll_endpoints_witness :
    animateScroll 0 1 1 0 [500, 1200] = ([7 / 8, 1], 1) ∧
      animateScroll 0 0 5 0 [100] = ([0], 0) := by
  constructor
  · have h := animateScroll_endpoints.2 0 1 1 0 [500] [] 1200 (by norm_num) (by norm_num)
      (by
        intro x hx
        simp only [List.mem_singleton] at hx
        subst hx
        norm_num)
      (by norm_num)
    norm_num [easeOutCubic] at h
    exact h
  · exact animateScroll_endpoints.1 0 0 5 0 [100] (Or.inl rfl)

/-! ## Click mapping and discrete stepping -/

/-- C9: the click handler maps hit segment `idx` to the signed step
`-(quarterCount - idx - 1)`; for `visibleCount = 20` the quarter count is `5`
and the centered segment (`idx = quarterCount - 1`) maps to step `0`; and
`scrollByStep` with step `0` from a settled integer in-range scroll starts no
animation (hence no completion callback and no emission). -/
theorem clickSteps_center_noop :
    (∀ q idx : ℕ, clickSteps q idx = -((q : ℤ) - idx - 1)) ∧
      (measurements 20 30).quarterCount = 5 ∧
      clickSteps (measurements 20 30).quarterCount
        ((measurements 20 30).quarterCount - 1) = 0 ∧
      (∀ (len : ℕ) (scrollS : ℚ) (inf : Bool) (n : ℤ),
        0 ≤ n → n ≤ (len : ℤ) - 1 →
          scrollByStep len scrollS inf ((n : ℤ) : ℚ) 0 = none) := by
  have hq : (measurements 20 30).quarterCount = 5 := rfl
  refine ⟨?_, hq, ?_, ?_⟩
  · intro q idx
    unfold clickSteps
    ring
  · rw [hq]
    decide
  · intro len scrollS inf n h0 h1
    have hround : jsRound ((n : ℤ) : ℚ) = n := by
      rw [jsRound, Int.floor_eq_iff]
      constructor
      · push_cast
        linarith
      · push_cast
        linarith
    have h0Q : (0 : ℚ) ≤ ((n : ℤ) : ℚ) := by exact_mod_cast h0
    have h1Q : ((n : ℤ) : ℚ) ≤ (len : ℚ) - 1 := by
      have hcast : ((n : ℤ) : ℚ) ≤ (((len : ℤ) - 1 : ℤ) : ℚ) := by exact_mod_cast h1
      push_cast at hcast
      linarith
    have hc : clamp ((n : ℤ) : ℚ) 0 ((len : ℚ) - 1) = ((n : ℤ) : ℚ) := by
      unfold clamp
      rw [min_eq_left h1Q, max_eq_right h0Q]
    cases inf
    · simp [scrollByStep, hround, hc]
    · simp [scrollByStep, hround]

/-- Witness for C9: stepping by `0` from settled scroll `1` in a bounded
three-item list is a no-op. -/
theorem clickSteps_center_noop_witness :
    scrollByStep 3 5 false (((1 : ℤ) : ℚ)) 0 = none :=
  clickSteps_center_noop.2.2.2 3 5 false 1 (by norm_num) (by norm_num)

/-! ## The inertia driver in bounded mode -/

lemma clamp_mem (v lo hi : ℚ) (h : lo ≤ hi) : lo ≤ clamp v lo hi ∧ clamp v lo hi ≤ hi :=
  ⟨le_max_left _ _, max_le h (min_le_right _ _)⟩

/-- C6: in bounded mode the inertia driver always targets an end scroll in
`[0, N-1]`: outside the range it snaps to the clamped current position with the
fixed snap-back constant `10`; inside it runs the constant-deceleration model
(`decel = dragSensitivity * 10` signed against the velocity,
`duration = |velocity / decel|`, `target = round (start + v*d + (1/2)*decel*d^2)`),
clamps the target into range, and recomputes the duration from the clamped
distance. -/
theorem decelerate_bounded (len : ℕ) (dragS : ℚ) (start velocity : ℚ) (hlen : 1 ≤ len) :
    (0 ≤ (decelerateAndAnimateScroll len dragS false start velocity).1 ∧
        (decelerateAndAnimateScroll len dragS false start velocity).1 ≤ (len : ℚ) - 1) ∧
      (start < 0 ∨ (len : ℚ) - 1 < start →
        decelerateAndAnimateScroll len dragS false start velocity =
          (clamp start 0 ((len : ℚ) - 1),
            Real.sqrt ((|start - clamp start 0 ((len : ℚ) - 1)| / 10 : ℚ) : ℝ))) ∧
      (¬(start < 0 ∨ (len : ℚ) - 1 < start) →
        decelerateAndAnimateScroll len dragS false start velocity =
          (clamp ((jsRound (start + (velocity * |velocity / (dragS * 10)| +
              1 / 2 * (if 0 < velocity then -(dragS * 10) else dragS * 10) *
                |velocity / (dragS * 10)| ^ 2)) : ℤ) : ℚ) 0 ((len : ℚ) - 1),
            Real.sqrt ((|clamp ((jsRound (start + (velocity * |velocity / (dragS * 10)| +
                1 / 2 * (if 0 < velocity then -(dragS * 10) else dragS * 10) *
                  |velocity / (dragS * 10)| ^ 2)) : ℤ) : ℚ) 0 ((len : ℚ) - 1) - start| /
              (dragS * 10) : ℚ) : ℝ))) := by
  have hl1 : (0 : ℚ) ≤ (len : ℚ) - 1 := by
    have hcast : (1 : ℚ) ≤ (len : ℚ) := by exact_mod_cast hlen
    linarith
  have he1 : start < 0 ∨ (len : ℚ) - 1 < start →
      decelerateAndAnimateScroll len dragS false start velocity =
        (clamp start 0 ((len : ℚ) - 1),
          Real.sqrt ((|start - clamp start 0 ((len : ℚ) - 1)| / 10 : ℚ) : ℝ)) := fun hov => by
    simp [decelerateAndAnimateScroll, hov]
  have he2 : ¬(start < 0 ∨ (len : ℚ) - 1 < start) →
      decelerateAndAnimateScroll len dragS false start velocity =
        (clamp ((jsRound (start + (velocity * |velocity / (dragS * 10)| +
            1 / 2 * (if 0 < velocity then -(dragS * 10) else dragS * 10) *
              |velocity / (dragS * 10)| ^ 2)) : ℤ) : ℚ) 0 ((len : ℚ) - 1),
          Real.sqrt ((|clamp ((jsRound (start + (velocity * |velocity / (dragS * 10)| +
              1 / 2 * (if 0 < velocity then -(dragS * 10) else dragS * 10) *
                |velocity / (dragS * 10)| ^ 2)) : ℤ) : ℚ) 0 ((len : ℚ) - 1) - start| /
            (dragS * 10) : ℚ) : ℝ)) := fun hov => by
    simp [decelerateAndAnimateScroll, hov]
  refine ⟨?_, he1, he2⟩
  by_cases hov : start < 0 ∨ (len : ℚ) - 1 < start
  · rw [he1 hov]
    exact ⟨(clamp_mem start 0 ((len : ℚ) - 1) hl1).1, (clamp_mem start 0 ((len : ℚ) - 1) hl1).2⟩
  · rw [he2 hov]
    exact ⟨(clamp_mem _ 0 ((len : ℚ) - 1) hl1).1, (clamp_mem _ 0 ((len : ℚ) - 1) hl1).2⟩

/-- Witness for C6 at `len = 3`, `dragSensitivity = 3`, overscrolled start `5`,
velocity `2`: the chosen end target lies in `[0, 2]`. -/
theorem decelerate_bounded_witness :
    0 ≤ (decelerateAndAnimateScroll 3 3 false 5 2).1 ∧
      (decelerateAndAnimateScroll 3 3 false 5 2).1 ≤ ((3 : ℕ) : ℚ) - 1 :=
  (decelerate_bounded 3 3 5 2 (by norm_num)).1

/-! ## The Option List Normalizer (working-list builder) -/

lemma repList_length {β : Type} (l : List β) (k : ℕ) :
    (repList l k).length = k * l.length := by
  induction k with
  | zero => simp [repList]
  | succ n ih =>
    simp [repList, ih]
    ring

lemma repList_get? {β : Type} (l : List β) (hl : l ≠ []) (k : ℕ) :
    ∀ i, i < k * l.length → (repList l k).get? i = l.get? (i % l.length) := by
  induction k with
  | zero =>
    intro i hi
    simp at hi
  | succ n ih =>
    intro i hi
    rcases lt_or_ge i l.length with h | h
    · rw [repList, List.get?_append h, Nat.mod_eq_of_lt h]
    · have hlpos : 0 < l.length := List.length_pos.mpr hl
      have hs : (n + 1) * l.length = n * l.length + l.length := by ring
      have hi2 : i - l.length < n * l.length := by omega
      rw [repList, List.get?_append_right h, ih (i - l.length) hi2]
      congr 1
      conv_rhs => rw [show i = i - l.length + l.length by omega]
      rw [Nat.add_mod_right]

lemma fillLoop_spec {β : Type} (src : List β) (hs : src ≠ []) (half : ℕ) :
    ∀ fuel acc, half - acc.length ≤ fuel →
      ∃ k, fillLoop src hs half acc = acc ++ repList src k ∧
        half ≤ acc.length + k * src.length ∧
        (0 < k → acc.length + (k - 1) * src.length < half) := by
  intro fuel
  induction fuel with
  | zero =>
    intro acc hf
    refine ⟨0, ?_, by omega, by omega⟩
    rw [fillLoop, dif_neg (by omega)]
    simp [repList]
  | succ n ih =>
    intro acc hf
    by_cases hlt : acc.length < half
    · have hpos : 0 < src.length := List.length_pos.mpr hs
      obtain ⟨k, hk1, hk2, hk3⟩ := ih (acc ++ src) (by
        simp only [List.length_append]
        omega)
      simp only [List.length_append] at hk2 hk3
      refine ⟨k + 1, ?_, ?_, ?_⟩
      · rw [fillLoop, dif_pos hlt, hk1]
        simp [repList]
      · have hmul : (k + 1) * src.length = k * src.length + src.length := by ring
        omega
      · intro _
        rcases Nat.eq_zero_or_pos k with h0 | hkpos
        · subst h0
          simpa using hlt
        · have h3 := hk3 hkpos
          obtain ⟨k2, rfl⟩ : ∃ k2, k = k2 + 1 := ⟨k - 1, by omega⟩
          have hmul : (k2 + 1) * src.length = k2 * src.length + src.length := by ring
          simp only [Nat.add_sub_cancel] at h3 ⊢
          omega
    · refine ⟨0, ?_, by omega, by omega⟩
      rw [fillLoop, dif_neg hlt]
      simp [repList]

lemma optionsList_infinite_spec {β : Type} (opts : List β) (vc : ℕ) (hne : opts ≠ []) :
    ∃ k, optionsList opts true vc = repList opts k ∧
      (vc + 1) / 2 ≤ k * opts.length ∧
      (0 < k → (k - 1) * opts.length < (vc + 1) / 2) ∧
      (0 < (vc + 1) / 2 → 0 < k) := by
  have hlen : opts.length ≠ 0 := (List.length_pos.mpr hne).ne'
  obtain ⟨k, h1, h2, h3⟩ :=
    fillLoop_spec opts (fun he => hlen (by simp [he])) ((vc + 1) / 2)
      ((vc + 1) / 2) [] (by simp)
  refine ⟨k, ?_, by simpa using h2, by simpa using h3, ?_⟩
  · rw [optionsList]
    rw [if_neg (by simp), dif_neg hlen]
    simpa using h1
  · intro hhalf
    by_contra hk
    push_neg at hk
    interval_cases k
    simp at h2
    omega

/-- C3: the working-list builder returns the caller's options unchanged when
not infinite (and `[]` when they are empty), and otherwise produces whole
end-to-end copies of the options whose total length is the smallest positive
multiple of `options.length` reaching `ceil (visibleCount / 2)`, so that
`workingList[i] = options[i % options.length]` at every index. -/
theorem optionsList_buildWorkingList {β : Type} (opts : List β) (vc : ℕ) (hvc : 0 < vc) :
    optionsList opts false vc = opts ∧
      optionsList ([] : List β) true vc = [] ∧
      (opts ≠ [] → ∃ k, 0 < k ∧
        optionsList opts true vc = repList opts k ∧
        (optionsList opts true vc).length = k * opts.length ∧
        (vc + 1) / 2 ≤ k * opts.length ∧
        (∀ m, 0 < m → (vc + 1) / 2 ≤ m * opts.length → k * opts.length ≤ m * opts.length) ∧
        (∀ i, i < k * opts.length →
          (optionsList opts true vc).get? i = opts.get? (i % opts.length))) := by
  refine ⟨by simp [optionsList], by simp [optionsList], ?_⟩
  intro hne
  obtain ⟨k, h1, h2, h3, h4⟩ := optionsList_infinite_spec opts vc hne
  have hhalf : 0 < (vc + 1) / 2 := by omega
  have hk : 0 < k := h4 hhalf
  refine ⟨k, hk, h1, ?_, h2, ?_, ?_⟩
  · rw [h1, repList_length]
  · intro m hm hmge
    have h3k := h3 hk
    have hL : 0 < opts.length := List.length_pos.mpr hne
    have hkm : k - 1 < m := by
      by_contra hc
      push_neg at hc
      have hmle : m * opts.length ≤ (k - 1) * opts.length := Nat.mul_le_mul_right _ hc
      omega
    exact Nat.mul_le_mul_right _ (by omega)
  · intro i hi
    rw [h1]
    exact repList_get? opts hne k i hi

/-- Witness for C3 at `opts = [10, 20]`, `visibleCount = 20`. -/
theorem optionsList_buildWorkingList_witness :
    optionsList ([10, 20] : List ℕ) false 20 = [10, 20] ∧
      (∃ k, 0 < k ∧
        optionsList ([10, 20] : List ℕ) true 20 = repList [10, 20] k ∧
        (optionsList ([10, 20] : List ℕ) true 20).length = k * ([10, 20] : List ℕ).length ∧
        (20 + 1) / 2 ≤ k * ([10, 20] : List ℕ).length ∧
        (∀ m, 0 < m → (20 + 1) / 2 ≤ m * ([10, 20] : List ℕ).length →
          k * ([10, 20] : List ℕ).length ≤ m * ([10, 20] : List ℕ).length) ∧
        (∀ i, i < k * ([10, 20] : List ℕ).length →
          (optionsList ([10, 20] : List ℕ) true 20).get? i =
            ([10, 20] : List ℕ).get? (i % ([10, 20] : List ℕ).length))) :=
  ⟨(optionsList_buildWorkingList ([10, 20] : List ℕ) 20 (by norm_num)).1,
    (optionsList_buildWorkingList ([10, 20] : List ℕ) 20 (by norm_num)).2.2 (by simp)⟩

/-! ## The Render Projector: ring items and wrap-around ghosts -/

lemma ghostIter_eq {γ : Type} (mkPre mkApp : ℕ → γ) (q : ℕ) :
    ∀ fuel i items, q - i ≤ fuel →
      ghostIter mkPre mkApp q i items =
        ((List.range' i (q - i)).reverse.map mkPre) ++ items ++
          ((List.range' i (q - i)).map mkApp) := by
  intro fuel
  induction fuel with
  | zero =>
    intro i items hf
    rw [ghostIter, dif_neg (by omega)]
    have h0 : q - i = 0 := by omega
    simp [h0]
  | succ n ih =>
    intro i items hf
    by_cases hlt : i < q
    · rw [ghostIter, dif_pos hlt, ih (i + 1) _ (by omega)]
      have hqi : q - i = q - (i + 1) + 1 := by omega
      rw [hqi, List.range'_succ]
      simp [List.append_assoc]
    · rw [ghostIter, dif_neg hlt]
      have h0 : q - i = 0 := by omega
      simp [h0]

lemma displayItems_spec {α : Type} (m : Measurements) (src : List (WPOption α))
    (hlen : 0 < src.length) (hq : m.quarterCount ≤ src.length) :
    (displayItems m src true).length = src.length + 2 * m.quarterCount ∧
      ∀ j, j < src.length + 2 * m.quarterCount →
        ∃ it : DisplayItem α, (displayItems m src true).get? j = some it ∧
          it.ringIndex = (j : ℤ) - m.quarterCount ∧
          it.angle = -m.itemAngle * ((j : ℝ) - (m.quarterCount : ℝ)) ∧
          ∃ o : WPOption α,
            src.get? ((((j : ℤ) - m.quarterCount) % (src.length : ℤ) +
                (src.length : ℤ)) % (src.length : ℤ)).toNat = some o ∧
              it.value? = some o.value ∧ it.label? = some o.label := by
  have hform : displayItems m src true =
      ((List.range m.quarterCount).reverse.map fun i =>
          spreadItem (src.get? (src.length - i - 1)) (-(i : ℤ) - 1)
            (m.itemAngle * ((i : ℝ) + 1))) ++
        (src.enum.map fun p => spreadItem (some p.2) (p.1 : ℤ) (-m.itemAngle * (p.1 : ℝ))) ++
        ((List.range m.quarterCount).map fun i =>
          spreadItem (src.get? i) ((i : ℤ) + src.length)
            (-m.itemAngle * ((i : ℝ) + src.length))) := by
    simp only [displayItems]
    rw [if_pos ⟨trivial, hlen⟩, ghostIter_eq _ _ m.quarterCount m.quarterCount 0 _ (by omega)]
    simp [List.range_eq_range']
  constructor
  · rw [hform]
    simp only [List.length_append, List.length_map, List.length_reverse, List.length_range,
      List.enum_length]
    omega
  · intro j hj
    rw [hform]
    rcases lt_or_ge j m.quarterCount with hc1 | h1
    · -- the prepended wrap-around ghosts
      rw [List.get?_append (by
        simp only [List.length_append, List.length_map, List.length_reverse, List.length_range,
          List.enum_length]
        omega)]
      rw [List.get?_append (by
        simp only [List.length_map, List.length_reverse, List.length_range]
        omega)]
      rw [List.get?_map, List.get?_reverse (by simpa using hc1),
        List.length_range, List.get?_range (by omega)]
      refine ⟨_, rfl, ?_, ?_, ?_⟩
      · simp only [spreadItem]
        omega
      · simp only [spreadItem]
        have hz : ((m.quarterCount - 1 - j : ℕ) : ℤ) =
            (m.quarterCount : ℤ) - 1 - (j : ℤ) := by omega
        have hr : ((m.quarterCount - 1 - j : ℕ) : ℝ) =
            (m.quarterCount : ℝ) - 1 - (j : ℝ) := by
          exact_mod_cast congrArg (fun z : ℤ => (z : ℝ)) hz
        rw [hr]
        ring
      · have hmod1 : (((j : ℤ) - m.quarterCount) % (src.length : ℤ) + (src.length : ℤ)) %
            (src.length : ℤ) = ((j : ℤ) - m.quarterCount) % (src.length : ℤ) := by
          rw [show ((j : ℤ) - m.quarterCount) % (src.length : ℤ) + (src.length : ℤ) =
              ((j : ℤ) - m.quarterCount) % (src.length : ℤ) + (src.length : ℤ) * 1 by ring,
            Int.add_mul_emod_self_left, Int.emod_emod_of_dvd _ dvd_rfl]
        have hmod2 : ((j : ℤ) - m.quarterCount) % (src.length : ℤ) =
            (j : ℤ) - m.quarterCount + src.length := by
          have he : ((j : ℤ) - m.quarterCount + src.length) % (src.length : ℤ) =
              (j : ℤ) - m.quarterCount + src.length :=
            Int.emod_eq_of_lt (by omega) (by omega)
          rw [← he, show (j : ℤ) - m.quarterCount + src.length =
            (j : ℤ) - m.quarterCount + (src.length : ℤ) * 1 by ring, Int.add_mul_emod_self_left]
        rw [hmod1, hmod2]
        have hT : ((j : ℤ) - m.quarterCount + src.length).toNat =
            src.length - (m.quarterCount - 1 - j) - 1 := by omega
        rw [hT]
        have hidx : src.length - (m.quarterCount - 1 - j) - 1 < src.length := by omega
        obtain ⟨o, ho⟩ : ∃ o, src.get? (src.length - (m.quarterCount - 1 - j) - 1) = some o :=
          ⟨_, List.get?_eq_get hidx⟩
        refine ⟨o, ho, ?_, ?_⟩
        · simp only [spreadItem]
          rw [ho]
          rfl
        · simp only [spreadItem]
          rw [ho]
          rfl
    · rcases lt_or_ge j (m.quarterCount + src.length) with hc2 | h2
      · -- the base working-list items
        rw [List.get?_append (by
          simp only [List.length_append, List.length_map, List.length_reverse, List.length_range,
            List.enum_length]
          omega)]
        rw [List.get?_append_right (by
          simp only [List.length_map, List.length_reverse, List.length_range]
          omega)]
        simp only [List.length_map, List.length_reverse, List.length_range]
        rw [List.get?_map, List.get?_enum]
        have hidx : j - m.quarterCount < src.length := by omega
        obtain ⟨o, ho⟩ : ∃ o, src.get? (j - m.quarterCount) = some o :=
          ⟨_, List.get?_eq_get hidx⟩
        rw [ho]
        refine ⟨_, rfl, ?_, ?_, ?_⟩
        · simp only [spreadItem]
          omega
        · simp only [spreadItem]
          have hz : ((j - m.quarterCount : ℕ) : ℤ) = (j : ℤ) - m.quarterCount := by omega
          have hr : ((j - m.quarterCount : ℕ) : ℝ) = (j : ℝ) - (m.quarterCount : ℝ) := by
            exact_mod_cast congrArg (fun z : ℤ => (z : ℝ)) hz
          rw [hr]
        · have hmod1 : (((j : ℤ) - m.quarterCount) % (src.length : ℤ) + (src.length : ℤ)) %
              (src.length : ℤ) = ((j : ℤ) - m.quarterCount) % (src.length : ℤ) := by
            rw [show ((j : ℤ) - m.quarterCount) % (src.length : ℤ) + (src.length : ℤ) =
                ((j : ℤ) - m.quarterCount) % (src.length : ℤ) + (src.length : ℤ) * 1 by ring,
              Int.add_mul_emod_self_left, Int.emod_emod_of_dvd _ dvd_rfl]
          have hmod2 : ((j : ℤ) - m.quarterCount) % (src.length : ℤ) =
              (j : ℤ) - m.quarterCount :=
            Int.emod_eq_of_lt (by omega) (by omega)
          rw [hmod1, hmod2]
          have hT : ((j : ℤ) - m.quarterCount).toNat = j - m.quarterCount := by omega
          rw [hT]
          exact ⟨o, ho, by simp [spreadItem], by simp [spreadItem]⟩
      · -- the appended wrap-around ghosts
        rw [List.get?_append_right (by
          simp only [List.length_append, List.length_map, List.length_reverse, List.length_range,
            List.enum_length]
          omega)]
        simp only [List.length_append, List.length_map, List.length_reverse, List.length_range,
          List.enum_length]
        rw [List.get?_map, List.get?_range (by omega)]
        refine ⟨_, rfl, ?_, ?_, ?_⟩
        · simp only [spreadItem]
          omega
        · simp only [spreadItem]
          have hz : ((j - (m.quarterCount + src.length) : ℕ) : ℤ) =
              (j : ℤ) - m.quarterCount - src.length := by omega
          have hr : ((j - (m.quarterCount + src.length) : ℕ) : ℝ) =
              (j : ℝ) - (m.quarterCount : ℝ) - (src.length : ℝ) := by
            exact_mod_cast congrArg (fun z : ℤ => (z : ℝ)) hz
          rw [hr]
          ring
        · have hmod1 : (((j : ℤ) - m.quarterCount) % (src.length : ℤ) + (src.length : ℤ)) %
              (src.length : ℤ) = ((j : ℤ) - m.quarterCount) % (src.length : ℤ) := by
            rw [show ((j : ℤ) - m.quarterCount) % (src.length : ℤ) + (src.length : ℤ) =
                ((j : ℤ) - m.quarterCount) % (src.length : ℤ) + (src.length : ℤ) * 1 by ring,
              Int.add_mul_emod_self_left, Int.emod_emod_of_dvd _ dvd_rfl]
          have hmod2 : ((j : ℤ) - m.quarterCount) % (src.length : ℤ) =
              (j : ℤ) - m.quarterCount - src.length := by
            conv_lhs => rw [show (j : ℤ) - (m.quarterCount : ℤ) =
              ((j : ℤ) - m.quarterCount - src.length) + (src.length : ℤ) * 1 from by ring]
            rw [Int.add_mul_emod_self_left]
            exact Int.emod_eq_of_lt (by omega) (by omega)
          rw [hmod1, hmod2]
          have hT : ((j : ℤ) - m.quarterCount - src.length).toNat =
              j - (m.quarterCount + src.length) := by omega
          rw [hT]
          have hidx : j - (m.quarterCount + src.length) < src.length := by omega
          obtain ⟨o, ho⟩ : ∃ o, src.get? (j - (m.quarterCount + src.length)) = some o :=
            ⟨_, List.get?_eq_get hidx⟩
          refine ⟨o, ho, ?_, ?_⟩
          · simp only [spreadItem]
            rw [ho]
            rfl
          · simp only [spreadItem]
            rw [ho]
            rfl

/-- C10: in the rendered item list of the infinite-mode pipeline, the ring
indices form the contiguous integer range `[-quarterCount, N + quarterCount - 1]`
(position `j` holds ring index `j - quarterCount`), every item — wrap-around
ghosts included — satisfies `angle = -itemAngle * ringIndex`, and the item at
ring index `i` carries the working-list option at index
`((i % N) + N) % N`. -/
theorem displayItems_ring_invariant {α : Type} (opts : List (WPOption α)) (vc : ℕ)
    (ih : ℝ) (hne : opts ≠ []) (hvc : 0 < vc) :
    (renderedItems opts vc ih).length =
        (optionsList opts true vc).length + 2 * (measurements vc ih).quarterCount ∧
      ∀ j, j < (optionsList opts true vc).length + 2 * (measurements vc ih).quarterCount →
        ∃ it : DisplayItem α, (renderedItems opts vc ih).get? j = some it ∧
          it.ringIndex = (j : ℤ) - (measurements vc ih).quarterCount ∧
          it.angle = -(measurements vc ih).itemAngle *
            ((j : ℝ) - ((measurements vc ih).quarterCount : ℝ)) ∧
          ∃ o : WPOption α,
            (optionsList opts true vc).get?
                ((((j : ℤ) - (measurements vc ih).quarterCount) %
                      ((optionsList opts true vc).length : ℤ) +
                    ((optionsList opts true vc).length : ℤ)) %
                  ((optionsList opts true vc).length : ℤ)).toNat = some o ∧
              it.value? = some o.value ∧ it.label? = some o.label := by
  obtain ⟨k, h1, hge, _, h4⟩ := optionsList_infinite_spec opts vc hne
  have hLpos : 0 < opts.length := List.length_pos.mpr hne
  have hk : 0 < k := h4 (by omega)
  have hlen_eq : (optionsList opts true vc).length = k * opts.length := by
    rw [h1, repList_length]
  have hlen_pos : 0 < (optionsList opts true vc).length := by
    rw [hlen_eq]
    exact Nat.mul_pos hk hLpos
  have hq4 : (measurements vc ih).quarterCount = vc / 4 := by
    show vc >>> 2 = vc / 4
    rw [Nat.shiftRight_eq_div_pow]
  have hq_le : (measurements vc ih).quarterCount ≤ (optionsList opts true vc).length := by
    rw [hq4, hlen_eq]
    omega
  have h := displayItems_spec (measurements vc ih) (optionsList opts true vc) hlen_pos hq_le
  exact h

/-- Witness for C10 at `opts = [(1, X), (2, Y)]`, `visibleCount = 20`,
`itemHeight = 30`. -/
theorem displayItems_ring_invariant_witness :
    (renderedItems ([⟨(1 : ℕ), "X"⟩, ⟨2, "Y"⟩] : List (WPOption ℕ)) 20 30).length =
        (optionsList ([⟨(1 : ℕ), "X"⟩, ⟨2, "Y"⟩] : List (WPOption ℕ)) true 20).length +
          2 * (measurements 20 30).quarterCount ∧
      ∀ j, j < (optionsList ([⟨(1 : ℕ), "X"⟩, ⟨2, "Y"⟩] : List (WPOption ℕ)) true 20).length +
          2 * (measurements 20 30).quarterCount →
        ∃ it : DisplayItem ℕ,
          (renderedItems ([⟨(1 : ℕ), "X"⟩, ⟨2, "Y"⟩] : List (WPOption ℕ)) 20 30).get? j = some it ∧
          it.ringIndex = (j : ℤ) - (measurements 20 30).quarterCount ∧
          it.angle = -(measurements 20 30).itemAngle *
            ((j : ℝ) - ((measurements 20 30).quarterCount : ℝ)) ∧
          ∃ o : WPOption ℕ,
            (optionsList ([⟨(1 : ℕ), "X"⟩, ⟨2, "Y"⟩] : List (WPOption ℕ)) true 20).get?
                ((((j : ℤ) - (measurements 20 30).quarterCount) %
                      ((optionsList ([⟨(1 : ℕ), "X"⟩, ⟨2, "Y"⟩] : List (WPOption ℕ)) true 20).length : ℤ) +
                    ((optionsList ([⟨(1 : ℕ), "X"⟩, ⟨2, "Y"⟩] : List (WPOption ℕ)) true 20).length : ℤ)) %
                  ((optionsList ([⟨(1 : ℕ), "X"⟩, ⟨2, "Y"⟩] : List (WPOption ℕ)) true 20).length : ℤ)).toNat =
              some o ∧
              it.value? = some o.value ∧ it.label? = some o.label :=
  displayItems_ring_invariant ([⟨(1 : ℕ), "X"⟩, ⟨2, "Y"⟩] : List (WPOption ℕ)) 20 30 (by simp) (by norm_num)

end VueWheelPicker
